import Mathlib

/-!
Verification development for the contract-leakage-engine backend.

The data model is embedded from the TypeScript interfaces under
src/shared-types (which mirror the Python Pydantic models) and from the
backend documentation.  Components whose Python implementation is not
part of this repository snapshot (rule evaluator, RAG context assembler,
AI detector, reconciler, orchestration) are modelled from the
specification; each such definition carries a doc comment starting with
the words Modelled from the spec.
-/

namespace ContractLeakage

/-- Severity enum from src/shared-types/src/enums/index.ts (lines 43-49).
The enum has five members; the wire string values are lower-case. -/
inductive Severity where
  | LOW
  | MEDIUM
  | HIGH
  | CRITICAL
  | INFO
deriving DecidableEq, Repr

/-- The wire string value of each Severity member, exactly as written in
src/shared-types/src/enums/index.ts. -/
def Severity.value : Severity → String
  | .LOW => "low"
  | .MEDIUM => "medium"
  | .HIGH => "high"
  | .CRITICAL => "critical"
  | .INFO => "info"

/-- All members of the Severity enum, in declaration order. -/
def Severity.all : List Severity := [.LOW, .MEDIUM, .HIGH, .CRITICAL, .INFO]

/-- Modelled from the spec: the ordering LOW < MEDIUM < HIGH < CRITICAL used
when ranking findings by severity (the TypeScript string enum itself carries
no order).  INFO is ranked below LOW. -/
def Severity.rank : Severity → Nat
  | .INFO => 0
  | .LOW => 1
  | .MEDIUM => 2
  | .HIGH => 3
  | .CRITICAL => 4

/-- DetectionMethod enum from src/shared-types/src/enums/index.ts. -/
inductive DetectionMethod where
  | RULE
  | AI
  | HYBRID
deriving DecidableEq, Repr

/-- The wire string value of each DetectionMethod member. -/
def DetectionMethod.value : DetectionMethod → String
  | .RULE => "rule"
  | .AI => "ai"
  | .HYBRID => "hybrid"

/-- LeakageCategory enum from src/shared-types/src/enums/index.ts. -/
inductive LeakageCategory where
  | PRICING
  | RENEWAL
  | TERMINATION
  | SERVICE_CREDIT
  | VOLUME_DISCOUNT
  | PENALTY
  | AUTO_RENEWAL
  | LIABILITY_CAP
  | PAYMENT_TERMS
  | DELIVERY
  | COMPLIANCE
  | OTHER
deriving DecidableEq, Repr

/-- ClauseType enum from src/shared-types/src/enums/index.ts. -/
inductive ClauseType where
  | PRICING
  | PAYMENT
  | PAYMENT_TERMS
  | RENEWAL
  | AUTO_RENEWAL
  | TERMINATION
  | SERVICE_LEVEL
  | LIABILITY
  | INDEMNIFICATION
  | CONFIDENTIALITY
  | INTELLECTUAL_PROPERTY
  | DISPUTE_RESOLUTION
  | FORCE_MAJEURE
  | WARRANTY
  | DELIVERY
  | SLA
  | PENALTY
  | PENALTIES
  | DISCOUNT
  | DISCOUNTS
  | VOLUME_COMMITMENT
  | PRICE_ADJUSTMENT
  | EXCLUSIVITY
  | OTHER
deriving DecidableEq, Repr

/-- ContractStatus enum from src/shared-types/src/enums/index.ts. -/
inductive ContractStatus where
  | UPLOADED
  | EXTRACTING_TEXT
  | TEXT_EXTRACTED
  | EXTRACTING_CLAUSES
  | CLAUSES_EXTRACTED
  | ANALYZING
  | ANALYZED
  | FAILED
deriving DecidableEq, Repr

/-- SessionStatus enum from src/shared-types/src/enums/index.ts. -/
inductive SessionStatus where
  | IN_PROGRESS
  | COMPLETED
  | FAILED
deriving DecidableEq, Repr

/-- OverrideAction enum from src/shared-types/src/enums/index.ts. -/
inductive OverrideAction where
  | CHANGE_SEVERITY
  | MARK_FALSE_POSITIVE
  | ADD_NOTE
  | ACCEPT
  | REJECT
  | RESOLVE
deriving DecidableEq, Repr

/-- MonetaryValue from src/shared-types/src/models/clause.ts. -/
structure MonetaryValue where
  amount : ℚ
  currency : String
  context : Option String
deriving DecidableEq, Repr

/-- ExtractedEntities from src/shared-types/src/models/clause.ts
(the optional arrays are embedded as plain lists, absent meaning empty). -/
structure ExtractedEntities where
  dates : List String := []
  monetary_values : List MonetaryValue := []
  percentages : List String := []
  parties : List String := []
  obligations : List String := []
  conditions : List String := []
  deadlines : List String := []
deriving DecidableEq, Repr

/-- Clause from src/shared-types/src/models/clause.ts. -/
structure Clause where
  id : String
  contract_id : String
  clause_type : ClauseType
  section_number : Option String := none
  original_text : String
  normalized_summary : String
  entities : ExtractedEntities := {}
  risk_signals : List String := []
  confidence_score : ℚ
  embedding : Option (List ℚ) := none
  created_at : String := ""
deriving DecidableEq, Repr

/-- FinancialImpact from the LeakageFinding model (src/unnamed/part_004). -/
structure FinancialImpact where
  amount : ℚ
  currency : String
  calculation_method : Option String := none
  notes : Option String := none
deriving DecidableEq, Repr

/-- LeakageFinding from src/unnamed/part_004 (shared-types finding model). -/
structure LeakageFinding where
  id : String
  contract_id : String
  finding_id : String := ""
  category : LeakageCategory
  severity : Severity
  risk_type : String := ""
  explanation : String
  recommended_action : String := ""
  affected_clause_ids : List String
  confidence_score : ℚ
  detection_method : DetectionMethod
  rule_id : Option String := none
  estimated_financial_impact : Option FinancialImpact := none
  assumptions : List String := []
  created_at : String := ""
deriving DecidableEq, Repr

/-- ContractMetadata from src/unnamed/part_004 (shared-types contract model). -/
structure ContractMetadata where
  file_type : Option String := none
  file_size : Option Nat := none
  contract_value : Option ℚ := none
  currency : Option String := none
  start_date : Option String := none
  end_date : Option String := none
  auto_renewal : Option Bool := none
  counterparty_name : Option String := none
deriving DecidableEq, Repr

/-- Contract from src/unnamed/part_004 (shared-types contract model). -/
structure Contract where
  id : String
  contract_id : String
  contract_name : String
  uploaded_by : String := ""
  upload_date : String := ""
  file_path : String := ""
  status : ContractStatus
  metadata : ContractMetadata := {}
  created_at : String := ""
  updated_at : String := ""
deriving DecidableEq, Repr

/-- FindingsBySeverity from src/API_REFERENCE.md (lines 785-790): the
session summary breakdown has exactly the four counters CRITICAL, HIGH,
MEDIUM and LOW. -/
structure FindingsBySeverity where
  CRITICAL : Nat
  HIGH : Nat
  MEDIUM : Nat
  LOW : Nat
deriving DecidableEq, Repr

/-- ProcessingStep from src/API_REFERENCE.md (AnalysisSession model). -/
structure ProcessingStep where
  step_name : String
  status : String
  start_time : String := ""
  end_time : Option String := none
deriving DecidableEq, Repr

/-- AnalysisSession from src/API_REFERENCE.md. -/
structure AnalysisSession where
  id : String
  contract_id : String
  session_id : String
  status : SessionStatus
  start_time : String := ""
  end_time : Option String := none
  total_findings : Nat
  findings_by_severity : FindingsBySeverity
  processing_steps : List ProcessingStep := []
  error_message : Option String := none
  created_at : String := ""
deriving DecidableEq, Repr

/-- UserOverride from src/BACKEND_OVERRIDES_IMPLEMENTATION.md: an override
record with full audit trail, partitioned by contract_id. -/
structure UserOverride where
  id : String
  contract_id : String
  finding_id : String
  action : OverrideAction
  user_email : String
  previous_value : Option String := none
  new_value : Option String := none
  notes : Option String := none
  reason : Option String := none
  timestamp : String := ""
deriving DecidableEq, Repr

end ContractLeakage

namespace ContractLeakage

/-! Repository layer.  The repository pattern is documented in
src/unnamed/part_003: all repositories extend BaseRepository, use
contract_id as partition key and issue queries of the form
SELECT * FROM c WHERE c.contract_id = @contract_id.  A container is
embedded as the list of its records. -/

namespace FindingRepository

/-- FindingRepository.get_by_contract_id from src/unnamed/part_003: returns
the stored findings whose contract_id equals the given id. -/
def get_by_contract_id (store : List LeakageFinding) (cid : String) :
    List LeakageFinding :=
  store.filter (fun r => r.contract_id == cid)

/-- finding_repo.bulk_create from src/PHASE_5_RAG_AI_SUMMARY.md (lines
178-188): stores a batch of findings in the container. -/
def bulk_create (store : List LeakageFinding) (fs : List LeakageFinding) :
    List LeakageFinding :=
  store ++ fs

end FindingRepository

namespace ClauseRepository

/-- Modelled from the spec: the clause repository query scoped to one
contract, following the partition-key pattern of src/unnamed/part_003. -/
def get_by_contract_id (store : List Clause) (cid : String) : List Clause :=
  store.filter (fun r => r.contract_id == cid)

end ClauseRepository

namespace ContractRepository

/-- Modelled from the spec: the contract repository query scoped to one
contract, following the partition-key pattern of src/unnamed/part_003. -/
def get_by_contract_id (store : List Contract) (cid : String) : List Contract :=
  store.filter (fun r => r.contract_id == cid)

end ContractRepository

namespace SessionRepository

/-- Modelled from the spec: the analysis-session repository query scoped to
one contract, following the partition-key pattern of src/unnamed/part_003. -/
def get_by_contract_id (store : List AnalysisSession) (cid : String) :
    List AnalysisSession :=
  store.filter (fun r => r.contract_id == cid)

end SessionRepository

namespace OverrideRepository

/-- OverrideRepository.get_by_contract from
src/BACKEND_OVERRIDES_IMPLEMENTATION.md (lines 29-41): all overrides for a
contract, via a partition-scoped query. -/
def get_by_contract (store : List UserOverride) (cid : String) :
    List UserOverride :=
  store.filter (fun r => r.contract_id == cid)

/-- Create-override endpoint storage step from
src/BACKEND_OVERRIDES_IMPLEMENTATION.md: persists one override record. -/
def create (store : List UserOverride) (o : UserOverride) : List UserOverride :=
  store ++ [o]

end OverrideRepository

/-! Rule evaluator (spec sections 3, 4.1, 4.2).  The Python rules engine
(shared/services, rules_engine.detect_leakage in
src/PHASE_5_RAG_AI_SUMMARY.md lines 178-188) is not part of this snapshot,
so it is modelled from the spec. -/

/-- Modelled from the spec: the contract metadata inputs a rule trigger can
reference — contract value and duration (spec section 4.2). -/
structure EvalMetadata where
  contract_id : String
  contract_value : Option ℚ := none
  duration_months : Option Nat := none
  currency : String := "USD"
deriving DecidableEq, Repr

/-- Modelled from the spec: a declarative rule trigger with
required/forbidden keyword sets, required/forbidden clause types and
numeric thresholds on contract value and duration (spec section 3). -/
structure Trigger where
  required_keywords : List String := []
  forbidden_keywords : List String := []
  required_clause_types : List ClauseType := []
  forbidden_clause_types : List ClauseType := []
  min_contract_value : Option ℚ := none
  max_contract_value : Option ℚ := none
  min_duration_months : Option Nat := none
  max_duration_months : Option Nat := none
deriving DecidableEq, Repr

/-- Modelled from the spec: a declarative detection rule (spec section 3). -/
structure Rule where
  id : String
  category : LeakageCategory
  severity : Severity
  trigger : Trigger
  explanation_template : String
  recommended_action_template : String := ""
  impact_per_month : Option ℚ := none
  repeatable : Bool := false
deriving DecidableEq, Repr

/-- Modelled from the spec: keyword presence in a clause, tested against
original_text and the pre-computed risk_signals tags (spec section 4.2). -/
def keyword_hit (c : Clause) (kw : String) : Bool :=
  c.risk_signals.contains kw || (c.original_text.splitOn kw).length > 1

/-- Modelled from the spec: whether a trigger condition matches one clause
given the contract metadata (spec section 4.2). -/
def trigger_matches (t : Trigger) (meta : EvalMetadata) (c : Clause) : Bool :=
  t.required_keywords.all (keyword_hit c) &&
  t.forbidden_keywords.all (fun kw => !keyword_hit c kw) &&
  (t.required_clause_types.isEmpty ||
    t.required_clause_types.contains c.clause_type) &&
  !t.forbidden_clause_types.contains c.clause_type &&
  (match t.min_contract_value, meta.contract_value with
   | some lo, some v => decide (lo ≤ v)
   | some _, none => false
   | none, _ => true) &&
  (match t.max_contract_value, meta.contract_value with
   | some hi, some v => decide (v ≤ hi)
   | some _, none => false
   | none, _ => true) &&
  (match t.min_duration_months, meta.duration_months with
   | some lo, some d => decide (lo ≤ d)
   | some _, none => false
   | none, _ => true) &&
  (match t.max_duration_months, meta.duration_months with
   | some hi, some d => decide (d ≤ hi)
   | some _, none => false
   | none, _ => true)

/-- Rule findings carry the fixed confidence 0.95 (spec section 4.2 and the
comparison table in src/PHASE_5_RAG_AI_SUMMARY.md lines 249-258). -/
def RULE_CONFIDENCE : ℚ := 95 / 100

/-- Modelled from the spec: financial impact estimation from contract
value/duration, recording every input used as an assumptions string
(spec section 4.2). -/
def estimate_impact (r : Rule) (meta : EvalMetadata) :
    Option FinancialImpact × List String :=
  match r.impact_per_month, meta.duration_months with
  | some per, some months =>
      (some { amount := per * months, currency := meta.currency,
              calculation_method := some "impact_per_month * duration_months" },
       ["assumed monthly impact used", "assumed contract duration in months used"])
  | _, _ => (none, [])

/-- Modelled from the spec: descending order on clause confidence, used for
the tie-break that puts the highest-confidence matching clause first
(spec section 4.2). -/
def clause_confidence_ge (a b : Clause) : Prop :=
  b.confidence_score ≤ a.confidence_score

instance : DecidableRel clause_confidence_ge := fun a b =>
  inferInstanceAs (Decidable (b.confidence_score ≤ a.confidence_score))

/-- Modelled from the spec: the finding a fired rule produces — detection
method RULE, the rule's id, the fixed rule confidence, and the matched
clause ids as evidence (spec section 4.2). -/
def fire_rule (r : Rule) (meta : EvalMetadata) (ids : List String) :
    LeakageFinding :=
  { id := "rule_" ++ meta.contract_id ++ "_" ++ r.id
    contract_id := meta.contract_id
    finding_id := "rule_" ++ meta.contract_id ++ "_" ++ r.id
    category := r.category
    severity := r.severity
    risk_type := r.id
    explanation := r.explanation_template
    recommended_action := r.recommended_action_template
    affected_clause_ids := ids
    confidence_score := RULE_CONFIDENCE
    detection_method := .RULE
    rule_id := some r.id
    estimated_financial_impact := (estimate_impact r meta).1
    assumptions := (estimate_impact r meta).2 }

/-- Modelled from the spec: evaluation of a single rule over the clause set.
A non-repeatable rule fires at most once, with the highest-confidence
matching clause first and the remaining matches listed after it; a
repeatable rule fires once per matching clause (spec section 4.2). -/
def evaluate_rule (meta : EvalMetadata) (clauses : List Clause) (r : Rule) :
    List LeakageFinding :=
  let hits := clauses.filter (trigger_matches r.trigger meta)
  if hits.isEmpty then []
  else if r.repeatable then
    hits.map (fun c => fire_rule r meta [c.id])
  else
    [fire_rule r meta
      ((List.insertionSort clause_confidence_ge hits).map (fun c => c.id))]

/-- Modelled from the spec: rules_engine.detect_leakage — evaluates the
whole catalog against the clause set (spec section 4.2,
src/PHASE_5_RAG_AI_SUMMARY.md line 180). -/
def rules_detect_leakage (meta : EvalMetadata) (clauses : List Clause)
    (rules : List Rule) : List LeakageFinding :=
  rules.flatMap (evaluate_rule meta clauses)

/-! AI detector with RAG context (spec sections 3, 4.5, 4.6).  The Python
services (shared/services/rag_service.py, ai_detection_service.py,
embedding_service.py per src/PHASE_5_RAG_AI_SUMMARY.md) are not part of
this snapshot, so they are modelled from the spec. -/

/-- A retrieved-clause entry of a RAG context, after the shape documented in
src/PHASE_5_RAG_AI_SUMMARY.md lines 88-107. -/
structure RetrievedClause where
  clause_id : String
  similarity_score : ℚ
  matched_query : String
deriving DecidableEq, Repr

/-- RagContext (spec section 3 and src/PHASE_5_RAG_AI_SUMMARY.md lines
88-107): the bounded, deduplicated retrieval context for one contract. -/
structure RagContext where
  contract_id : String
  retrieved_clauses : List RetrievedClause
deriving DecidableEq, Repr

/-- The clause ids present in a RAG context. -/
def RagContext.clause_ids (ctx : RagContext) : List String :=
  ctx.retrieved_clauses.map (fun rc => rc.clause_id)

/-- Modelled from the spec: merging one retrieved result into the
deduplicated accumulator — keep the entry with the higher similarity score
for a clause that matched several queries (spec section 4.5). -/
def merge_into (acc : List RetrievedClause) (r : RetrievedClause) :
    List RetrievedClause :=
  match acc.find? (fun a => a.clause_id == r.clause_id) with
  | some a =>
      if a.similarity_score < r.similarity_score then
        acc.map (fun a' => if a'.clause_id == r.clause_id then r else a')
      else acc
  | none => acc ++ [r]

/-- Modelled from the spec: deduplication of the per-query search results by
clause_id, keeping the highest score (spec section 4.5). -/
def merge_results (results : List RetrievedClause) : List RetrievedClause :=
  results.foldl merge_into []

/-- Invariant of the deduplicating merge: after processing the results in
done, the accumulator has pairwise-distinct clause ids, each accumulator
entry is one of the processed results and carries the maximum similarity
score among the processed results with its clause id, and every processed
clause id is represented. -/
def merged_inv (done acc : List RetrievedClause) : Prop :=
  (acc.map (fun x => x.clause_id)).Nodup ∧
  (∀ x ∈ acc, x ∈ done ∧
    ∀ y ∈ done, y.clause_id = x.clause_id →
      y.similarity_score ≤ x.similarity_score) ∧
  (∀ y ∈ done, ∃ x ∈ acc, x.clause_id = y.clause_id)

/-- Modelled from the spec: descending order on similarity score, used for
the global truncation of the merged context (spec section 4.5). -/
def score_ge (a b : RetrievedClause) : Prop :=
  b.similarity_score ≤ a.similarity_score

instance : DecidableRel score_ge := fun a b =>
  inferInstanceAs (Decidable (b.similarity_score ≤ a.similarity_score))

instance : IsTotal RetrievedClause score_ge :=
  ⟨fun a b => le_total b.similarity_score a.similarity_score⟩

instance : IsTrans RetrievedClause score_ge :=
  ⟨fun _ _ _ hab hbc => le_trans hbc hab⟩

/-- Modelled from the spec: the flat list of per-query search results, each
tagged with the query that produced it (spec section 4.5). -/
def flat_results (search : String → List (String × ℚ)) (queries : List String) :
    List RetrievedClause :=
  queries.flatMap (fun q =>
    (search q).map (fun p => { clause_id := p.1, similarity_score := p.2,
                               matched_query := q }))

/-- Modelled from the spec: rag_service.build_rag_context — for each query
search the index scoped to the contract, merge results across queries
deduplicating by clause_id with the highest score kept, then truncate to
the overall maximum count keeping the globally highest-scoring clauses
(spec section 4.5, src/PHASE_5_RAG_AI_SUMMARY.md lines 82-107). -/
def build_rag_context (contract_id : String) (max_clauses : Nat)
    (search : String → List (String × ℚ)) (queries : List String) :
    RagContext :=
  let merged := merge_results (flat_results search queries)
  let ranked := List.insertionSort score_ge merged
  { contract_id := contract_id, retrieved_clauses := ranked.take max_clauses }

/-- Modelled from the spec: one structured finding parsed from the model
response before validation (spec section 4.6). -/
structure RawModelFinding where
  category : LeakageCategory
  severity : Severity
  risk_type : String := ""
  explanation : String
  recommended_action : String := ""
  affected_clause_ids : List String
  confidence : ℚ
deriving DecidableEq, Repr

/-- Modelled from the spec: model confidence is clamped to the unit
interval (spec section 4.6). -/
def clamp01 (q : ℚ) : ℚ := max 0 (min 1 q)

/-- Modelled from the spec: conversion of a parsed model finding into a
LeakageFinding — detection method AI, no rule_id, clamped confidence
(spec section 4.6, src/PHASE_5_RAG_AI_SUMMARY.md lines 155-165). -/
def to_ai_finding (contract_id : String) (i : Nat) (raw : RawModelFinding) :
    LeakageFinding :=
  { id := "ai_" ++ contract_id ++ "_" ++ toString i
    contract_id := contract_id
    finding_id := "ai_" ++ contract_id ++ "_" ++ toString i
    category := raw.category
    severity := raw.severity
    risk_type := raw.risk_type
    explanation := raw.explanation
    recommended_action := raw.recommended_action
    affected_clause_ids := raw.affected_clause_ids
    confidence_score := clamp01 raw.confidence
    detection_method := .AI
    rule_id := none }

/-- Modelled from the spec: ai_service.detect_leakage — the parsed model
findings with every finding whose affected_clause_ids are not all inside
the RAG context dropped as a hallucination-control measure
(spec section 4.6, src/PHASE_5_RAG_AI_SUMMARY.md lines 122-128). -/
def ai_detect_leakage (ctx : RagContext) (raws : List RawModelFinding) :
    List LeakageFinding :=
  ((raws.enum).map (fun p => to_ai_finding ctx.contract_id p.1 p.2)).filter
    (fun f => f.affected_clause_ids.all (fun cid => ctx.clause_ids.contains cid))

/-! Finding reconciler (spec section 4.7).  The reconciler implementation is
not part of this snapshot, so it is modelled from the spec. -/

/-- Modelled from the spec: two findings are duplicates when they share
category and at least one affected clause id, regardless of detection
method (spec section 4.7). -/
def is_duplicate (r m : LeakageFinding) : Bool :=
  r.category == m.category &&
  r.affected_clause_ids.any (fun cid => m.affected_clause_ids.contains cid)

/-- Separator used when appending the model explanation as corroborating
text to a merged finding. -/
def CORROBORATION_SEP : String := " AI corroboration: "

/-- Modelled from the spec: merging a duplicate pair — the rule finding is
kept, detection method becomes HYBRID, the model explanation is appended as
corroborating text, and the confidence is the maximum of the two
(spec section 4.7). -/
def merge_findings (r m : LeakageFinding) : LeakageFinding :=
  { r with
    detection_method := .HYBRID
    explanation := r.explanation ++ CORROBORATION_SEP ++ m.explanation
    confidence_score := max r.confidence_score m.confidence_score }

/-- Modelled from the spec: descending order on severity rank, then
estimated financial impact descending with missing impact last; the sort is
stable so insertion order decides ties (spec section 4.7). -/
def finding_order (a b : LeakageFinding) : Bool :=
  b.severity.rank < a.severity.rank ||
  (b.severity.rank == a.severity.rank &&
    match a.estimated_financial_impact, b.estimated_financial_impact with
    | some x, some y => decide (y.amount ≤ x.amount)
    | some _, none => true
    | none, some _ => false
    | none, none => true)

/-- Modelled from the spec: the rule-side pass of the reconciler — each rule
finding that has a duplicate among the model findings is replaced by the
merged finding (the first duplicate is used), the rest pass through
unchanged (spec section 4.7). -/
def reconcile_merged (rule_findings model_findings : List LeakageFinding) :
    List LeakageFinding :=
  rule_findings.map (fun r =>
    match model_findings.find? (fun m => is_duplicate r m) with
    | some m => merge_findings r m
    | none => r)

/-- Modelled from the spec: the model-side pass of the reconciler — model
findings that duplicate some rule finding are dropped, the rest pass
through unchanged (spec section 4.7). -/
def reconcile_passthrough (rule_findings model_findings : List LeakageFinding) :
    List LeakageFinding :=
  model_findings.filter (fun m =>
    !(rule_findings.any (fun r => is_duplicate r m)))

/-- Modelled from the spec: the reconciler — merged rule findings followed
by non-duplicate model findings, sorted by the documented total order
(spec section 4.7). -/
def reconcile (rule_findings model_findings : List LeakageFinding) :
    List LeakageFinding :=
  List.insertionSort (fun a b => finding_order a b = true)
    (reconcile_merged rule_findings model_findings ++
      reconcile_passthrough rule_findings model_findings)

/-! Embedding service (spec section 4.3).  The Python embedding service
(shared/services/embedding_service.py per src/PHASE_5_RAG_AI_SUMMARY.md
lines 15-28) is not part of this snapshot, so it is modelled from the
spec. -/

/-- Modelled from the spec: cache-by-presence — a clause needs embedding
only when it does not already carry an embedding of the current model's
dimensionality (spec section 4.3). -/
def needs_embedding (dim : Nat) (c : Clause) : Bool :=
  match c.embedding with
  | some v => v.length != dim
  | none => true

/-- Modelled from the spec: embedding one clause from its
normalized_summary when it needs an embedding, otherwise leaving it
untouched (spec section 4.3). -/
def embed_clause (embed : String → List ℚ) (dim : Nat) (c : Clause) : Clause :=
  if needs_embedding dim c then
    { c with embedding := some (embed c.normalized_summary) }
  else c

/-- Modelled from the spec: embedding_service.embed_clauses_for_contract —
embeds every clause that needs it and returns the updated clauses together
with the number of clauses embedded (spec section 4.3,
src/PHASE_5_RAG_AI_SUMMARY.md lines 15-28). -/
def embed_clauses_for_contract (embed : String → List ℚ) (dim : Nat)
    (clauses : List Clause) : List Clause × Nat :=
  (clauses.map (embed_clause embed dim),
   (clauses.filter (needs_embedding dim)).length)

/-- Modelled from the spec: vector-index upsert keyed by clause id — an
existing entry for the clause is replaced, otherwise a new entry is
appended (spec section 4.4). -/
def index_upsert (idx : List (String × List ℚ)) (cid : String) (v : List ℚ) :
    List (String × List ℚ) :=
  if idx.any (fun p => p.1 == cid) then
    idx.map (fun p => if p.1 == cid then (cid, v) else p)
  else idx ++ [(cid, v)]

/-- Modelled from the spec: indexing every embedded clause of a batch into
the vector index via upsert (spec section 4.4). -/
def index_clauses (idx : List (String × List ℚ)) (cs : List Clause) :
    List (String × List ℚ) :=
  cs.foldl (fun acc c =>
    match c.embedding with
    | some v => index_upsert acc c.id v
    | none => acc) idx

/-! Orchestration (spec sections 4.7 state machine and 7, and the
analyze_contract integration in src/PHASE_5_RAG_AI_SUMMARY.md lines
178-190: graceful degradation — if AI detection fails, the system continues
with rule-based findings). -/

/-- DetectionRun from spec section 3: the observability record of one
detection run. -/
structure DetectionRun where
  contract_id : String
  rule_finding_count : Nat
  model_finding_count : Nat
  final_finding_count : Nat
  degraded : Bool
  findings : List LeakageFinding
  warnings : List String
deriving Repr

/-- Modelled from the spec: reconciliation as a fallible step —
ReconciliationError is raised when an input finding has no
affected_clause_ids, which is fatal to the run (spec section 7). -/
def reconcileE (rule_findings model_findings : List LeakageFinding) :
    Except String (List LeakageFinding) :=
  if (rule_findings ++ model_findings).any
      (fun f => f.affected_clause_ids.isEmpty) then
    .error "ReconciliationError: finding with no affected_clause_ids"
  else
    .ok (reconcile rule_findings model_findings)

/-- Modelled from the spec: the analyze_contract orchestration — the
mandatory rules branch runs first and its failure fails the run; the
optional AI branch is caught, its failure degrading the run to rule
findings only; reconciliation failure fails the run
(src/PHASE_5_RAG_AI_SUMMARY.md lines 178-190, spec section 7). -/
def analyze_contract (cid : String)
    (rule_branch : Except String (List LeakageFinding))
    (model_branch : Except String (List LeakageFinding)) :
    Except String DetectionRun :=
  match rule_branch with
  | .error e => .error e
  | .ok rfs =>
    match model_branch with
    | .error e =>
      match reconcileE rfs [] with
      | .error e2 => .error e2
      | .ok final =>
        .ok { contract_id := cid
              rule_finding_count := rfs.length
              model_finding_count := 0
              final_finding_count := final.length
              degraded := true
              findings := final
              warnings := [e] }
    | .ok mfs =>
      match reconcileE rfs mfs with
      | .error e2 => .error e2
      | .ok final =>
        .ok { contract_id := cid
              rule_finding_count := rfs.length
              model_finding_count := mfs.length
              final_finding_count := final.length
              degraded := false
              findings := final
              warnings := [] }

/-! Session summary severity breakdown (claim C10). -/

/-- Modelled from the spec: the per-severity finding counters of an
AnalysisSession summary (shape FindingsBySeverity from
src/API_REFERENCE.md lines 785-790).  Each of the four buckets counts the
findings carrying that severity; a severity outside the four ranked values
falls into no bucket. -/
def tally_by_severity (fs : List LeakageFinding) : FindingsBySeverity :=
  { CRITICAL := (fs.filter (fun f => f.severity == .CRITICAL)).length
    HIGH := (fs.filter (fun f => f.severity == .HIGH)).length
    MEDIUM := (fs.filter (fun f => f.severity == .MEDIUM)).length
    LOW := (fs.filter (fun f => f.severity == .LOW)).length }

/-! Sample inputs used by the witnesses. -/

/-- Sample clause from the spec scenario in section 8. -/
def sampleClause : Clause :=
  { id := "cl1", contract_id := "c1", clause_type := .PRICING,
    original_text := "fixed price for 5 years, no adjustment",
    normalized_summary := "Fixed pricing with no escalation",
    risk_signals := ["no_price_escalation"], confidence_score := 1 }

/-- Sample rule from the spec scenario in section 8. -/
def sampleRule : Rule :=
  { id := "MISSING_PRICE_ESCALATION", category := .PRICING, severity := .HIGH,
    trigger := { required_keywords := ["no_price_escalation"] },
    explanation_template := "Fixed pricing with no escalation mechanism" }

/-- Sample evaluation metadata from the spec scenario in section 8. -/
def sampleMeta : EvalMetadata :=
  { contract_id := "c1", duration_months := some 60 }

/-- Sample rule finding: the finding the sample rule produces on the sample
clause. -/
def sampleRuleFinding : LeakageFinding := fire_rule sampleRule sampleMeta ["cl1"]

/-- Sample model finding referencing the same category and clause id as the
sample rule finding. -/
def sampleModelFinding : LeakageFinding :=
  { id := "ai_c1_0", contract_id := "c1", category := .PRICING,
    severity := .MEDIUM, explanation := "model explanation",
    affected_clause_ids := ["cl1"], confidence_score := 1,
    detection_method := .AI }

/-- Sample RAG context with a single retrieved clause cl1. -/
def sampleContext : RagContext :=
  { contract_id := "c1",
    retrieved_clauses := [{ clause_id := "cl1", similarity_score := 1,
                            matched_query := "missing price escalation" }] }

/-- Sample parsed model finding referencing the in-context clause cl1. -/
def sampleRaw : RawModelFinding :=
  { category := .PRICING, severity := .MEDIUM,
    explanation := "model explanation", affected_clause_ids := ["cl1"],
    confidence := 1 }

/-- Search results used by the C7 witness: clause cl1 matches both queries
with different scores, clause cl2 matches only the second query. -/
def wSearch : String → List (String × ℚ) := fun q =>
  if q == "q1" then [("cl1", 1)] else [("cl1", 2), ("cl2", 0)]

/-- Helper: members of a list filtered on contract_id carry that id. -/
theorem mem_filter_contract_id {α : Type} (key : α → String)
    (store : List α) (cid : String) (r : α)
    (h : r ∈ store.filter (fun x => key x == cid)) : key r = cid := by
  have h' := (List.mem_filter.mp h).2
  exact eq_of_beq h'

/-- C9: every persisted record type (Contract, Clause, LeakageFinding,
AnalysisSession, UserOverride) carries a contract_id field, each
repository query is scoped to a single contract_id so it returns only
records of that contract, and writes for other contracts leave a
contract's reads unchanged. -/
theorem repository_partition_scoping :
    (∀ (store : List LeakageFinding) (cid : String) r,
        r ∈ FindingRepository.get_by_contract_id store cid →
          r.contract_id = cid) ∧
    (∀ (store : List Clause) (cid : String) r,
        r ∈ ClauseRepository.get_by_contract_id store cid →
          r.contract_id = cid) ∧
    (∀ (store : List Contract) (cid : String) r,
        r ∈ ContractRepository.get_by_contract_id store cid →
          r.contract_id = cid) ∧
    (∀ (store : List AnalysisSession) (cid : String) r,
        r ∈ SessionRepository.get_by_contract_id store cid →
          r.contract_id = cid) ∧
    (∀ (store : List UserOverride) (cid : String) r,
        r ∈ OverrideRepository.get_by_contract store cid →
          r.contract_id = cid) ∧
    (∀ (store fs : List LeakageFinding) (cid : String),
        (∀ f ∈ fs, f.contract_id ≠ cid) →
        FindingRepository.get_by_contract_id
            (FindingRepository.bulk_create store fs) cid =
          FindingRepository.get_by_contract_id store cid) ∧
    (∀ (store : List UserOverride) (o : UserOverride) (cid : String),
        o.contract_id ≠ cid →
        OverrideRepository.get_by_contract (OverrideRepository.create store o)
            cid =
          OverrideRepository.get_by_contract store cid) := by
  refine ⟨fun s c r h => mem_filter_contract_id _ s c r h,
    fun s c r h => mem_filter_contract_id _ s c r h,
    fun s c r h => mem_filter_contract_id _ s c r h,
    fun s c r h => mem_filter_contract_id _ s c r h,
    fun s c r h => mem_filter_contract_id _ s c r h, ?_, ?_⟩
  · intro store fs cid hfs
    unfold FindingRepository.get_by_contract_id FindingRepository.bulk_create
    rw [List.filter_append]
    have hnil : fs.filter (fun r => r.contract_id == cid) = [] := by
      rw [List.filter_eq_nil_iff]
      intro f hf
      simpa using hfs f hf
    rw [hnil, List.append_nil]
  · intro store o cid ho
    unfold OverrideRepository.get_by_contract OverrideRepository.create
    rw [List.filter_append]
    have hnil : [o].filter (fun r => r.contract_id == cid) = [] := by
      rw [List.filter_eq_nil_iff]
      intro f hf
      simp only [List.mem_singleton] at hf
      subst hf
      simpa using ho
    rw [hnil, List.append_nil]

/-- C9 witness: a two-contract store where the scoped query returns only the
queried contract's finding, and a write for another contract leaves the
query result unchanged. -/
theorem repository_partition_scoping_witness :
    ({ id := "f1", contract_id := "c1", category := .PRICING,
       severity := .HIGH, explanation := "e",
       affected_clause_ids := ["cl1"], confidence_score := 1,
       detection_method := .RULE : LeakageFinding }).contract_id = "c1" ∧
    FindingRepository.get_by_contract_id
        (FindingRepository.bulk_create
          [{ id := "f1", contract_id := "c1", category := .PRICING,
             severity := .HIGH, explanation := "e",
             affected_clause_ids := ["cl1"], confidence_score := 1,
             detection_method := .RULE }]
          [{ id := "f2", contract_id := "c2", category := .RENEWAL,
             severity := .LOW, explanation := "e2",
             affected_clause_ids := ["cl2"], confidence_score := 1,
             detection_method := .RULE }]) "c1" =
      FindingRepository.get_by_contract_id
        [{ id := "f1", contract_id := "c1", category := .PRICING,
           severity := .HIGH, explanation := "e",
           affected_clause_ids := ["cl1"], confidence_score := 1,
           detection_method := .RULE }] "c1" := by
  constructor
  · exact repository_partition_scoping.1
      [{ id := "f1", contract_id := "c1", category := .PRICING,
         severity := .HIGH, explanation := "e",
         affected_clause_ids := ["cl1"], confidence_score := 1,
         detection_method := .RULE }] "c1" _ (by decide)
  · exact repository_partition_scoping.2.2.2.2.2.1 _ _ "c1" (by decide)

theorem tally_sum_eq (fs : List LeakageFinding) :
    (tally_by_severity fs).CRITICAL + (tally_by_severity fs).HIGH +
      (tally_by_severity fs).MEDIUM + (tally_by_severity fs).LOW =
      (fs.filter (fun f => f.severity != .INFO)).length := by
  induction fs with
  | nil => rfl
  | cons f fs ih =>
    simp only [tally_by_severity, List.filter_cons] at *
    cases hs : f.severity <;> simp_all [tally_by_severity] <;> omega

/-- C10: the session summary breakdown has exactly the four counters
CRITICAL, HIGH, MEDIUM, LOW, each counting the findings of that severity;
the four counters sum to the number of findings whose severity is not INFO,
and appending a finding of severity INFO leaves the whole breakdown
unchanged, so an INFO finding is counted in no bucket. -/
theorem session_summary_four_buckets (fs : List LeakageFinding) :
    ((tally_by_severity fs).CRITICAL =
        (fs.filter (fun f => f.severity == .CRITICAL)).length ∧
      (tally_by_severity fs).HIGH =
        (fs.filter (fun f => f.severity == .HIGH)).length ∧
      (tally_by_severity fs).MEDIUM =
        (fs.filter (fun f => f.severity == .MEDIUM)).length ∧
      (tally_by_severity fs).LOW =
        (fs.filter (fun f => f.severity == .LOW)).length) ∧
    (tally_by_severity fs).CRITICAL + (tally_by_severity fs).HIGH +
        (tally_by_severity fs).MEDIUM + (tally_by_severity fs).LOW =
      (fs.filter (fun f => f.severity != .INFO)).length ∧
    (∀ f : LeakageFinding, f.severity = .INFO →
      tally_by_severity (fs ++ [f]) = tally_by_severity fs) := by
  refine ⟨⟨rfl, rfl, rfl, rfl⟩, tally_sum_eq fs, ?_⟩
  intro f hf
  simp [tally_by_severity, List.filter_append, hf]

/-- C10 witness: concrete instance with one INFO finding. -/
theorem session_summary_four_buckets_witness :
    tally_by_severity
        ([] ++ [{ id := "f1", contract_id := "c1", category := .PRICING,
                  severity := .INFO, explanation := "e",
                  affected_clause_ids := ["cl1"], confidence_score := 1,
                  detection_method := .AI }]) =
      tally_by_severity ([] : List LeakageFinding) :=
  (session_summary_four_buckets []).2.2
    { id := "f1", contract_id := "c1", category := .PRICING,
      severity := .INFO, explanation := "e",
      affected_clause_ids := ["cl1"], confidence_score := 1,
      detection_method := .AI } rfl

/-- Helper: every finding produced by the rule evaluator has detection
method RULE, carries the firing rule's id, and the fixed rule
confidence. -/
theorem rules_detect_mem_shape (meta : EvalMetadata) (clauses : List Clause)
    (rules : List Rule) (f : LeakageFinding)
    (h : f ∈ rules_detect_leakage meta clauses rules) :
    f.detection_method = .RULE ∧ (∃ r ∈ rules, f.rule_id = some r.id) ∧
      f.confidence_score = RULE_CONFIDENCE := by
  rw [rules_detect_leakage, List.mem_flatMap] at h
  obtain ⟨r, hr, hf⟩ := h
  simp only [evaluate_rule] at hf
  split at hf
  · exact absurd hf (List.not_mem_nil f)
  · split at hf
    · rw [List.mem_map] at hf
      obtain ⟨c, _, hc⟩ := hf
      subst hc
      exact ⟨rfl, ⟨r, hr, rfl⟩, rfl⟩
    · rw [List.mem_singleton] at hf
      subst hf
      exact ⟨rfl, ⟨r, hr, rfl⟩, rfl⟩

/-- C8: every finding produced by the rule evaluator has confidence_score
equal to the fixed constant 0.95, independent of which rule fired or which
clauses matched. -/
theorem rule_findings_fixed_confidence (meta : EvalMetadata)
    (clauses : List Clause) (rules : List Rule) (f : LeakageFinding)
    (h : f ∈ rules_detect_leakage meta clauses rules) :
    f.confidence_score = 95 / 100 :=
  (rules_detect_mem_shape meta clauses rules f h).2.2

/-- C8 witness: the spec scenario rule fires on the sample clause and the
resulting finding carries confidence 0.95. -/
theorem rule_findings_fixed_confidence_witness :
    (fire_rule sampleRule sampleMeta ["cl1"]).confidence_score = 95 / 100 :=
  rule_findings_fixed_confidence sampleMeta [sampleClause] [sampleRule] _
    (List.Mem.head _)

/-- Helper: membership in the reconciler output coincides with membership
in the merged-plus-passthrough list, since the final sort permutes it. -/
theorem mem_reconcile {rfs mfs : List LeakageFinding} {f : LeakageFinding} :
    f ∈ reconcile rfs mfs ↔
      f ∈ reconcile_merged rfs mfs ++ reconcile_passthrough rfs mfs := by
  rw [reconcile, List.mem_insertionSort]

/-- Helper: the reconciler output has one finding per rule finding plus one
per non-duplicate model finding. -/
theorem length_reconcile (rfs mfs : List LeakageFinding) :
    (reconcile rfs mfs).length =
      rfs.length + (reconcile_passthrough rfs mfs).length := by
  rw [reconcile, List.length_insertionSort, List.length_append,
    reconcile_merged, List.length_map]

/-- Helper: every finding in the reconciler output is an unchanged rule
finding, a merge of a duplicate rule/model pair, or an unchanged model
finding. -/
theorem reconcile_mem_cases {rfs mfs : List LeakageFinding}
    {f : LeakageFinding} (h : f ∈ reconcile rfs mfs) :
    (∃ r ∈ rfs, f = r) ∨
    (∃ r ∈ rfs, ∃ m ∈ mfs, is_duplicate r m = true ∧ f = merge_findings r m) ∨
    (∃ m ∈ mfs, f = m) := by
  rw [mem_reconcile, List.mem_append] at h
  rcases h with h | h
  · rw [reconcile_merged, List.mem_map] at h
    obtain ⟨r, hr, hf⟩ := h
    cases hfind : mfs.find? (fun m => is_duplicate r m) with
    | none =>
      rw [hfind] at hf
      exact Or.inl ⟨r, hr, hf.symm⟩
    | some m =>
      rw [hfind] at hf
      exact Or.inr (Or.inl ⟨r, hr, m, List.mem_of_find?_eq_some hfind,
        List.find?_some hfind, hf.symm⟩)
  · rw [reconcile_passthrough, List.mem_filter] at h
    exact Or.inr (Or.inr ⟨f, h.1, rfl⟩)

/-- C1: whenever a rule finding and a model finding share category and at
least one affected clause id, the reconciler replaces the pair by one merged
finding that keeps the rule finding's identifying fields, has detection
method HYBRID, appends the model explanation as corroborating text, and
carries the maximum of the two confidence scores; all non-duplicate findings
from both inputs pass through unchanged, and the output length is the number
of rule findings plus the number of non-duplicate model findings. -/
theorem reconcile_duplicate_merge (rfs mfs : List LeakageFinding) :
    (∀ r ∈ rfs, ∀ m ∈ mfs, is_duplicate r m = true →
      ∃ m' ∈ mfs, is_duplicate r m' = true ∧
        ∃ f ∈ reconcile rfs mfs, f = merge_findings r m' ∧
          f.detection_method = .HYBRID ∧
          f.confidence_score = max r.confidence_score m'.confidence_score ∧
          f.explanation = r.explanation ++ CORROBORATION_SEP ++ m'.explanation ∧
          f.id = r.id ∧ f.category = r.category ∧ f.severity = r.severity ∧
          f.rule_id = r.rule_id ∧
          f.affected_clause_ids = r.affected_clause_ids) ∧
    ((reconcile rfs mfs).length =
      rfs.length +
        (mfs.filter (fun m => !(rfs.any (fun r => is_duplicate r m)))).length) ∧
    (∀ r ∈ rfs, (∀ m ∈ mfs, is_duplicate r m = false) →
      r ∈ reconcile rfs mfs) ∧
    (∀ m ∈ mfs, (∀ r ∈ rfs, is_duplicate r m = false) →
      m ∈ reconcile rfs mfs) := by
  refine ⟨?_, length_reconcile rfs mfs, ?_, ?_⟩
  · intro r hr m hm hdup
    cases hfind : mfs.find? (fun m => is_duplicate r m) with
    | none =>
      exact absurd hdup (by simpa using List.find?_eq_none.mp hfind m hm)
    | some m' =>
      refine ⟨m', List.mem_of_find?_eq_some hfind, List.find?_some hfind,
        merge_findings r m', ?_, rfl, rfl, rfl, rfl, rfl, rfl, rfl, rfl, rfl⟩
      rw [mem_reconcile]
      apply List.mem_append_left
      rw [reconcile_merged]
      exact List.mem_map.mpr ⟨r, hr, by simp [hfind]⟩
  · intro r hr hnone
    have hfind : mfs.find? (fun m => is_duplicate r m) = none :=
      List.find?_eq_none.mpr (fun m hm => by simp [hnone m hm])
    rw [mem_reconcile]
    apply List.mem_append_left
    rw [reconcile_merged]
    exact List.mem_map.mpr ⟨r, hr, by simp [hfind]⟩
  · intro m hm hno
    have hany : (rfs.any (fun r => is_duplicate r m)) = false := by
      rw [List.any_eq_false]
      intro r hr
      simp [hno r hr]
    rw [mem_reconcile]
    apply List.mem_append_right
    rw [reconcile_passthrough, List.mem_filter]
    exact ⟨hm, by simp [hany]⟩

/-- C1 witness: a rule finding and a model finding sharing category PRICING
and clause id cl1 are merged into one HYBRID finding with the maximum
confidence. -/
theorem reconcile_duplicate_merge_witness :
    ∃ m' ∈ [sampleModelFinding], is_duplicate sampleRuleFinding m' = true ∧
      ∃ f ∈ reconcile [sampleRuleFinding] [sampleModelFinding],
        f = merge_findings sampleRuleFinding m' ∧
        f.detection_method = .HYBRID ∧
        f.confidence_score =
          max sampleRuleFinding.confidence_score m'.confidence_score ∧
        f.explanation = sampleRuleFinding.explanation ++ CORROBORATION_SEP ++
          m'.explanation ∧
        f.id = sampleRuleFinding.id ∧
        f.category = sampleRuleFinding.category ∧
        f.severity = sampleRuleFinding.severity ∧
        f.rule_id = sampleRuleFinding.rule_id ∧
        f.affected_clause_ids = sampleRuleFinding.affected_clause_ids :=
  (reconcile_duplicate_merge [sampleRuleFinding] [sampleModelFinding]).1
    sampleRuleFinding (List.Mem.head _) sampleModelFinding (List.Mem.head _)
    rfl

/-- C2: when the model branch fails, the run still completes using only the
rule detector's output — the result is ok (no exception escapes), degraded
is true and the final finding count equals the rule finding count — and a
run can only fail through the mandatory rules branch or through
reconciliation. -/
theorem degraded_run_on_model_failure :
    (∀ (cid e : String) (rfs : List LeakageFinding),
      (∀ f ∈ rfs, f.affected_clause_ids ≠ []) →
      ∃ run, analyze_contract cid (.ok rfs) (.error e) = .ok run ∧
        run.degraded = true ∧ run.rule_finding_count = rfs.length ∧
        run.final_finding_count = rfs.length ∧
        run.final_finding_count = run.rule_finding_count) ∧
    (∀ (cid : String) (rb mb : Except String (List LeakageFinding))
        (err : String),
      analyze_contract cid rb mb = .error err →
        rb = .error err ∨
          ∃ rfs mfs, rb = .ok rfs ∧ reconcileE rfs mfs = .error err) := by
  constructor
  · intro cid e rfs h
    have hany : ((rfs ++ []).any (fun f => f.affected_clause_ids.isEmpty))
        = false := by
      rw [List.any_eq_false]
      intro f hf
      rw [List.append_nil] at hf
      simpa [List.isEmpty_iff] using h f hf
    have hrec : reconcileE rfs [] = .ok (reconcile rfs []) := by
      rw [reconcileE, if_neg]
      rw [hany]
      exact Bool.false_ne_true
    have hlen : (reconcile rfs []).length = rfs.length := by
      rw [length_reconcile, reconcile_passthrough]
      simp
    refine ⟨{ contract_id := cid, rule_finding_count := rfs.length,
              model_finding_count := 0,
              final_finding_count := (reconcile rfs []).length,
              degraded := true, findings := reconcile rfs [],
              warnings := [e] }, ?_, rfl, rfl, hlen, hlen⟩
    show analyze_contract cid (.ok rfs) (.error e) = _
    simp only [analyze_contract, hrec]
  · intro cid rb mb err h
    cases rb with
    | error e =>
      simp only [analyze_contract] at h
      rw [Except.error.injEq] at h
      exact Or.inl (by rw [h])
    | ok rfs =>
      cases mb with
      | error e =>
        cases hrec : reconcileE rfs [] with
        | error e2 =>
          simp only [analyze_contract, hrec] at h
          rw [Except.error.injEq] at h
          exact Or.inr ⟨rfs, [], rfl, by rw [hrec, h]⟩
        | ok final => simp [analyze_contract, hrec] at h
      | ok mfs =>
        cases hrec : reconcileE rfs mfs with
        | error e2 =>
          simp only [analyze_contract, hrec] at h
          rw [Except.error.injEq] at h
          exact Or.inr ⟨rfs, mfs, rfl, by rw [hrec, h]⟩
        | ok final => simp [analyze_contract, hrec] at h

/-- C2 witness: with one rule finding and a model branch that raised, the
run completes ok, degraded, with final count equal to the rule count. -/
theorem degraded_run_on_model_failure_witness :
    ∃ run, analyze_contract "c1" (.ok [sampleRuleFinding]) (.error "timeout")
        = .ok run ∧
      run.degraded = true ∧ run.rule_finding_count = 1 ∧
      run.final_finding_count = 1 ∧
      run.final_finding_count = run.rule_finding_count :=
  degraded_run_on_model_failure.1 "c1" "timeout" [sampleRuleFinding]
    (by decide)

/-- Helper: every finding produced by the AI detector has detection method
AI, no rule_id, and references only clause ids of the RAG context. -/
theorem ai_detect_mem_shape (ctx : RagContext) (raws : List RawModelFinding)
    (f : LeakageFinding) (h : f ∈ ai_detect_leakage ctx raws) :
    f.detection_method = .AI ∧ f.rule_id = none ∧
      ∀ cid ∈ f.affected_clause_ids, cid ∈ ctx.clause_ids := by
  rw [ai_detect_leakage, List.mem_filter] at h
  obtain ⟨hmem, hall⟩ := h
  rw [List.mem_map] at hmem
  obtain ⟨p, _, hp⟩ := hmem
  refine ⟨by rw [← hp]; rfl, by rw [← hp]; rfl, ?_⟩
  intro cid hcid
  rw [List.all_eq_true] at hall
  have := hall cid hcid
  simpa using this

/-- C3: every finding produced by the model detector references only clause
ids contained in the RagContext it was given (findings referencing an
outside clause are dropped), and consequently no AI finding in the
reconciled final output references a clause id outside the context. -/
theorem model_findings_within_context (ctx : RagContext)
    (raws : List RawModelFinding) (meta : EvalMetadata)
    (clauses : List Clause) (rules : List Rule) :
    (∀ f ∈ ai_detect_leakage ctx raws,
      ∀ cid ∈ f.affected_clause_ids, cid ∈ ctx.clause_ids) ∧
    (∀ f ∈ reconcile (rules_detect_leakage meta clauses rules)
        (ai_detect_leakage ctx raws),
      f.detection_method = .AI →
      ∀ cid ∈ f.affected_clause_ids, cid ∈ ctx.clause_ids) := by
  constructor
  · intro f hf
    exact (ai_detect_mem_shape ctx raws f hf).2.2
  · intro f hf hAI
    rcases reconcile_mem_cases hf with ⟨r, hr, hfe⟩ | ⟨r, _, m, _, _, hfe⟩ |
      ⟨m, hm, hfe⟩
    · subst hfe
      have hshape := (rules_detect_mem_shape meta clauses rules f hr).1
      rw [hAI] at hshape
      exact absurd hshape (by simp)
    · subst hfe
      simp [merge_findings] at hAI
    · subst hfe
      exact (ai_detect_mem_shape ctx raws f hm).2.2

/-- C3 witness: a model finding referencing the in-context clause cl1
survives and its clause id is in the context. -/
theorem model_findings_within_context_witness :
    "cl1" ∈ sampleContext.clause_ids :=
  (model_findings_within_context sampleContext [sampleRaw] sampleMeta [] []).1
    (to_ai_finding "c1" 0 sampleRaw) (List.Mem.head _) "cl1" (List.Mem.head _)

/-- C5: in the reconciled output of the two detectors, every RULE finding
carries a rule_id, every AI finding carries none, and every HYBRID finding
is the reconciler's merge of a duplicate rule/model pair. -/
theorem detection_method_invariant (meta : EvalMetadata)
    (clauses : List Clause) (rules : List Rule) (ctx : RagContext)
    (raws : List RawModelFinding) :
    ∀ f ∈ reconcile (rules_detect_leakage meta clauses rules)
        (ai_detect_leakage ctx raws),
      (f.detection_method = .RULE → f.rule_id.isSome) ∧
      (f.detection_method = .AI → f.rule_id = none) ∧
      (f.detection_method = .HYBRID →
        ∃ r ∈ rules_detect_leakage meta clauses rules,
          ∃ m ∈ ai_detect_leakage ctx raws,
            is_duplicate r m = true ∧ f = merge_findings r m) := by
  intro f hf
  rcases reconcile_mem_cases hf with ⟨r, hr, hfe⟩ | ⟨r, hr, m, hm, hd, hfe⟩ |
    ⟨m, hm, hfe⟩
  · subst hfe
    obtain ⟨hmeth, ⟨rl, _, hrid⟩, _⟩ :=
      rules_detect_mem_shape meta clauses rules f hr
    refine ⟨fun _ => by rw [hrid]; rfl, fun hAI => ?_, fun hH => ?_⟩
    · rw [hmeth] at hAI
      exact absurd hAI (by simp)
    · rw [hmeth] at hH
      exact absurd hH (by simp)
  · subst hfe
    refine ⟨fun hR => ?_, fun hAI => ?_, fun _ => ⟨r, hr, m, hm, hd, rfl⟩⟩
    · simp [merge_findings] at hR
    · simp [merge_findings] at hAI
  · subst hfe
    obtain ⟨hmeth, hrid, _⟩ := ai_detect_mem_shape ctx raws f hm
    refine ⟨fun hR => ?_, fun _ => hrid, fun hH => ?_⟩
    · rw [hmeth] at hR
      exact absurd hR (by simp)
    · rw [hmeth] at hH
      exact absurd hH (by simp)

/-- C5 witness: the merged HYBRID finding of the sample pipeline run is a
merge of a duplicate rule/model pair, and satisfies the rule-id laws. -/
theorem detection_method_invariant_witness :
    ∃ r ∈ rules_detect_leakage sampleMeta [sampleClause] [sampleRule],
      ∃ m ∈ ai_detect_leakage sampleContext [sampleRaw],
        is_duplicate r m = true ∧
        merge_findings sampleRuleFinding (to_ai_finding "c1" 0 sampleRaw) =
          merge_findings r m :=
  (detection_method_invariant sampleMeta [sampleClause] [sampleRule]
      sampleContext [sampleRaw]
      (merge_findings sampleRuleFinding (to_ai_finding "c1" 0 sampleRaw))
      (by
        rw [mem_reconcile]
        apply List.mem_append_left
        rw [reconcile_merged]
        exact List.mem_map.mpr ⟨sampleRuleFinding, List.Mem.head _,
          by rfl⟩)).2.2 rfl

/-- Helper: after embedding, a clause no longer needs an embedding,
provided the embedding function produces vectors of the current
dimensionality. -/
theorem needs_embedding_embed_clause (embed : String → List ℚ) (dim : Nat)
    (hembed : ∀ t, (embed t).length = dim) (c : Clause) :
    needs_embedding dim (embed_clause embed dim c) = false := by
  rw [embed_clause]
  split
  · simp [needs_embedding, hembed]
  · rename_i h
    simpa using h

/-- Helper: embedding a clause twice is the same as embedding it once. -/
theorem embed_clause_twice (embed : String → List ℚ) (dim : Nat)
    (hembed : ∀ t, (embed t).length = dim) (c : Clause) :
    embed_clause embed dim (embed_clause embed dim c) =
      embed_clause embed dim c := by
  have h := needs_embedding_embed_clause embed dim hembed c
  rw [embed_clause, if_neg]
  rw [h]
  exact Bool.false_ne_true

/-- Helper: index_upsert preserves uniqueness of the indexed clause ids. -/
theorem index_upsert_keys_nodup (idx : List (String × List ℚ)) (cid : String)
    (v : List ℚ) (h : (idx.map Prod.fst).Nodup) :
    ((index_upsert idx cid v).map Prod.fst).Nodup := by
  rw [index_upsert]
  split
  · have hkeys : (idx.map (fun p => if p.1 == cid then (cid, v) else p)).map
        Prod.fst = idx.map Prod.fst := by
      rw [List.map_map]
      apply List.map_congr_left
      intro p _
      by_cases hpc : p.1 = cid
      · simp [hpc]
      · simp [hpc]
    rw [hkeys]
    exact h
  · rename_i hany
    have hnot : cid ∉ idx.map Prod.fst := by
      intro hmem
      rw [List.mem_map] at hmem
      obtain ⟨p, hp, hpc⟩ := hmem
      rw [List.any_eq_true] at hany
      exact hany ⟨p, hp, by simp [hpc]⟩
    rw [List.map_append]
    simp only [List.map_cons, List.map_nil]
    rw [List.nodup_append]
    exact ⟨h, List.nodup_singleton cid, by simpa using hnot⟩

/-- Helper: indexing a batch of clauses preserves uniqueness of the indexed
clause ids. -/
theorem index_clauses_keys_nodup (cs : List Clause) :
    ∀ idx : List (String × List ℚ), (idx.map Prod.fst).Nodup →
      ((index_clauses idx cs).map Prod.fst).Nodup := by
  induction cs with
  | nil => intro idx h; exact h
  | cons c cs ih =>
    intro idx h
    rw [index_clauses, List.foldl_cons]
    cases hc : c.embedding with
    | none =>
      simp only [hc]
      exact ih idx h
    | some v =>
      simp only [hc]
      exact ih _ (index_upsert_keys_nodup idx c.id v h)

/-- C6: embed_clauses_for_contract is idempotent — after one call every
clause carries exactly one embedding of the current dimensionality, a
second call on the result embeds zero clauses and changes nothing, and
indexing the embedded clauses (even repeatedly) never produces duplicate
entries for a clause id. -/
theorem embed_clauses_idempotent (embed : String → List ℚ) (dim : Nat)
    (clauses : List Clause) (hembed : ∀ t, (embed t).length = dim) :
    embed_clauses_for_contract embed dim
        (embed_clauses_for_contract embed dim clauses).1 =
      ((embed_clauses_for_contract embed dim clauses).1, 0) ∧
    (∀ c ∈ (embed_clauses_for_contract embed dim clauses).1,
      ∃ v, c.embedding = some v ∧ v.length = dim) ∧
    ((index_clauses
        (index_clauses [] (embed_clauses_for_contract embed dim clauses).1)
        (embed_clauses_for_contract embed dim clauses).1).map
      Prod.fst).Nodup := by
  refine ⟨?_, ?_, ?_⟩
  · rw [embed_clauses_for_contract, embed_clauses_for_contract]
    have h1 : (clauses.map (embed_clause embed dim)).map
        (embed_clause embed dim) = clauses.map (embed_clause embed dim) := by
      rw [List.map_map]
      apply List.map_congr_left
      intro c _
      exact embed_clause_twice embed dim hembed c
    have h2 : (clauses.map (embed_clause embed dim)).filter
        (needs_embedding dim) = [] := by
      rw [List.filter_eq_nil_iff]
      intro c hc
      rw [List.mem_map] at hc
      obtain ⟨a, _, ha⟩ := hc
      rw [← ha, needs_embedding_embed_clause embed dim hembed a]
      exact Bool.false_ne_true
    rw [h1, h2]
    rfl
  · intro c hc
    rw [embed_clauses_for_contract] at hc
    rw [List.mem_map] at hc
    obtain ⟨a, _, ha⟩ := hc
    subst ha
    rw [embed_clause]
    split
    · exact ⟨embed a.normalized_summary, rfl, hembed _⟩
    · rename_i hneeds
      cases hae : a.embedding with
      | none => rw [needs_embedding, hae] at hneeds; simp at hneeds
      | some v =>
        refine ⟨v, rfl, ?_⟩
        rw [needs_embedding, hae] at hneeds
        simpa using hneeds
  · apply index_clauses_keys_nodup
    apply index_clauses_keys_nodup
    simp

/-- C6 witness: on the sample clause with a three-dimensional embedding
function, the second embed call changes nothing and embeds zero clauses. -/
theorem embed_clauses_idempotent_witness :
    embed_clauses_for_contract (fun _ => [0, 0, 0]) 3
        (embed_clauses_for_contract (fun _ => [0, 0, 0]) 3 [sampleClause]).1 =
      ((embed_clauses_for_contract (fun _ => [0, 0, 0]) 3 [sampleClause]).1,
        0) :=
  (embed_clauses_idempotent (fun _ => [0, 0, 0]) 3 [sampleClause]
    (fun _ => rfl)).1

/-- Helper: in a list with pairwise-distinct clause ids, two members with
the same clause id are the same entry. -/
theorem key_nodup_inj {l : List RetrievedClause}
    (h : (l.map (fun x => x.clause_id)).Nodup) {x y : RetrievedClause}
    (hx : x ∈ l) (hy : y ∈ l) (hcid : x.clause_id = y.clause_id) : x = y := by
  induction l with
  | nil => cases hx
  | cons a l ih =>
    rw [List.map_cons, List.nodup_cons] at h
    rcases List.mem_cons.mp hx with rfl | hx'
    · rcases List.mem_cons.mp hy with rfl | hy'
      · rfl
      · exact absurd (List.mem_map.mpr ⟨y, hy', hcid.symm⟩) h.1
    · rcases List.mem_cons.mp hy with rfl | hy'
      · exact absurd (List.mem_map.mpr ⟨x, hx', hcid⟩) h.1
      · exact ih h.2 hx' hy'

/-- Helper: one merge step preserves the deduplication invariant. -/
theorem merge_into_inv {done acc : List RetrievedClause} (r : RetrievedClause)
    (h : merged_inv done acc) : merged_inv (done ++ [r]) (merge_into acc r) := by
  obtain ⟨hnd, hmax, hcov⟩ := h
  cases hfind : acc.find? (fun a => a.clause_id == r.clause_id) with
  | none =>
    simp only [merge_into, hfind]
    have hnone : ∀ a ∈ acc, a.clause_id ≠ r.clause_id := by
      intro a ha
      simpa using List.find?_eq_none.mp hfind a ha
    refine ⟨?_, ?_, ?_⟩
    · rw [List.map_append, List.nodup_append]
      refine ⟨hnd, by simp, ?_⟩
      intro kk hk
      rw [List.mem_map] at hk
      obtain ⟨a, ha, hac⟩ := hk
      simpa [← hac] using hnone a ha
    · intro x hx
      rcases List.mem_append.mp hx with hx' | hx'
      · obtain ⟨hxd, hxmax⟩ := hmax x hx'
        refine ⟨List.mem_append_left _ hxd, ?_⟩
        intro y hy hycid
        rcases List.mem_append.mp hy with hy' | hy'
        · exact hxmax y hy' hycid
        · rw [List.mem_singleton] at hy'
          subst hy'
          exact absurd hycid.symm (hnone x hx')
      · rw [List.mem_singleton] at hx'
        subst hx'
        refine ⟨List.mem_append_right _ (List.mem_singleton.mpr rfl), ?_⟩
        intro y hy hycid
        rcases List.mem_append.mp hy with hy' | hy'
        · obtain ⟨x', hx'acc, hx'cid⟩ := hcov y hy'
          exact absurd (hx'cid.trans hycid) (hnone x' hx'acc)
        · rw [List.mem_singleton] at hy'
          subst hy'
          exact le_refl _
    · intro y hy
      rcases List.mem_append.mp hy with hy' | hy'
      · obtain ⟨x, hxacc, hxcid⟩ := hcov y hy'
        exact ⟨x, List.mem_append_left _ hxacc, hxcid⟩
      · rw [List.mem_singleton] at hy'
        subst hy'
        exact ⟨y, List.mem_append_right _ (List.mem_singleton.mpr rfl), rfl⟩
  | some a =>
    simp only [merge_into, hfind]
    have ha_mem : a ∈ acc := List.mem_of_find?_eq_some hfind
    have hacid : a.clause_id = r.clause_id := by
      simpa using List.find?_some hfind
    split
    · rename_i hlt
      have hg_cid : ∀ a' : RetrievedClause,
          ((if a'.clause_id == r.clause_id then r else a').clause_id) =
            a'.clause_id := by
        intro a'
        by_cases h' : a'.clause_id = r.clause_id
        · simp [h']
        · simp [h']
      refine ⟨?_, ?_, ?_⟩
      · have hkeys : ((acc.map (fun a' =>
            if a'.clause_id == r.clause_id then r else a')).map
              (fun x => x.clause_id)) = acc.map (fun x => x.clause_id) := by
          rw [List.map_map]
          apply List.map_congr_left
          intro p _
          exact hg_cid p
        rw [hkeys]
        exact hnd
      · intro x hx
        rw [List.mem_map] at hx
        obtain ⟨x0, hx0, hgx⟩ := hx
        by_cases hx0c : x0.clause_id = r.clause_id
        · have hxr : x = r := by rw [← hgx]; simp [hx0c]
          subst hxr
          refine ⟨List.mem_append_right _ (List.mem_singleton.mpr rfl), ?_⟩
          intro y hy hycid
          rcases List.mem_append.mp hy with hy' | hy'
          · have hya := (hmax a ha_mem).2 y hy' (by rw [hacid]; exact hycid)
            exact le_of_lt (lt_of_le_of_lt hya hlt)
          · rw [List.mem_singleton] at hy'
            subst hy'
            exact le_refl _
        · have hxx : x = x0 := by rw [← hgx]; simp [hx0c]
          subst hxx
          obtain ⟨hxd, hxmax⟩ := hmax x hx0
          refine ⟨List.mem_append_left _ hxd, ?_⟩
          intro y hy hycid
          rcases List.mem_append.mp hy with hy' | hy'
          · exact hxmax y hy' hycid
          · rw [List.mem_singleton] at hy'
            subst hy'
            exact absurd hycid.symm hx0c
      · intro y hy
        rcases List.mem_append.mp hy with hy' | hy'
        · obtain ⟨x, hxacc, hxcid⟩ := hcov y hy'
          refine ⟨_, List.mem_map_of_mem
            (fun a' => if a'.clause_id == r.clause_id then r else a') hxacc,
            ?_⟩
          rw [hg_cid x]
          exact hxcid
        · rw [List.mem_singleton] at hy'
          subst hy'
          refine ⟨_, List.mem_map_of_mem
            (fun a' => if a'.clause_id == y.clause_id then y else a') ha_mem,
            ?_⟩
          simp [hacid]
    · rename_i hnlt
      have hge : r.similarity_score ≤ a.similarity_score := le_of_not_lt hnlt
      refine ⟨hnd, ?_, ?_⟩
      · intro x hx
        obtain ⟨hxd, hxmax⟩ := hmax x hx
        refine ⟨List.mem_append_left _ hxd, ?_⟩
        intro y hy hycid
        rcases List.mem_append.mp hy with hy' | hy'
        · exact hxmax y hy' hycid
        · rw [List.mem_singleton] at hy'
          subst hy'
          have hxa : x = a :=
            key_nodup_inj hnd hx ha_mem (hacid.trans hycid).symm
          subst hxa
          exact hge
      · intro y hy
        rcases List.mem_append.mp hy with hy' | hy'
        · exact hcov y hy'
        · rw [List.mem_singleton] at hy'
          subst hy'
          exact ⟨a, ha_mem, hacid⟩

/-- Helper: the deduplicating merge satisfies its invariant over the whole
result list. -/
theorem merge_results_inv (results : List RetrievedClause) :
    merged_inv results (merge_results results) := by
  have main : ∀ (rest done acc : List RetrievedClause), merged_inv done acc →
      merged_inv (done ++ rest) (rest.foldl merge_into acc) := by
    intro rest
    induction rest with
    | nil =>
      intro done acc h
      simpa using h
    | cons r rest ih =>
      intro done acc h
      rw [List.foldl_cons]
      have hstep := ih (done ++ [r]) (merge_into acc r) (merge_into_inv r h)
      simpa [List.append_assoc] using hstep
  have h0 : merged_inv [] [] := ⟨by simp, by simp, by simp⟩
  simpa [merge_results] using main results [] [] h0

/-- C7: build_rag_context merges the per-query results deduplicating by
clause_id — the output has pairwise-distinct clause ids, and each kept entry
is one of the retrieved triples (so its matched_query produced its score)
whose score is maximal among all retrieved entries with that clause id —
and truncates to the overall maximum count by keeping globally
highest-scoring clauses: every kept entry scores at least as high as every
merged entry left out, and at most max_clauses entries are kept. -/
theorem build_rag_context_spec (cid : String) (k : Nat)
    (search : String → List (String × ℚ)) (queries : List String) :
    ((build_rag_context cid k search queries).retrieved_clauses.map
        (fun x => x.clause_id)).Nodup ∧
    (∀ x ∈ (build_rag_context cid k search queries).retrieved_clauses,
      x ∈ flat_results search queries ∧
      ∀ y ∈ flat_results search queries, y.clause_id = x.clause_id →
        y.similarity_score ≤ x.similarity_score) ∧
    (∀ x ∈ (build_rag_context cid k search queries).retrieved_clauses,
      ∀ y ∈ merge_results (flat_results search queries),
        y ∉ (build_rag_context cid k search queries).retrieved_clauses →
          y.similarity_score ≤ x.similarity_score) ∧
    (build_rag_context cid k search queries).retrieved_clauses.length ≤ k := by
  obtain ⟨hnd, hmax, _⟩ := merge_results_inv (flat_results search queries)
  have hperm : List.Perm
      (List.insertionSort score_ge (merge_results (flat_results search queries)))
      (merge_results (flat_results search queries)) :=
    List.perm_insertionSort score_ge _
  refine ⟨?_, ?_, ?_, ?_⟩
  · simp only [build_rag_context]
    have hsortkeys : ((List.insertionSort score_ge
        (merge_results (flat_results search queries))).map
          (fun x => x.clause_id)).Nodup :=
      (hperm.map (fun x => x.clause_id)).nodup_iff.mpr hnd
    exact List.Nodup.sublist
      (List.Sublist.map (fun x : RetrievedClause => x.clause_id)
        (List.take_sublist k _)) hsortkeys
  · intro x hx
    simp only [build_rag_context] at hx
    have hx' : x ∈ merge_results (flat_results search queries) :=
      hperm.mem_iff.mp (List.mem_of_mem_take hx)
    exact hmax x hx'
  · intro x hx y hyM hynot
    simp only [build_rag_context] at hx hynot
    have hsorted : List.Sorted score_ge (List.insertionSort score_ge
        (merge_results (flat_results search queries))) :=
      List.sorted_insertionSort score_ge _
    have hy_sorted : y ∈ List.insertionSort score_ge
        (merge_results (flat_results search queries)) :=
      (List.mem_insertionSort score_ge).mpr hyM
    have hsplit := List.take_append_drop k (List.insertionSort score_ge
      (merge_results (flat_results search queries)))
    rw [← hsplit] at hsorted hy_sorted
    have hpw := (List.pairwise_append.mp hsorted).2.2
    rcases List.mem_append.mp hy_sorted with hy' | hy'
    · exact absurd hy' hynot
    · exact hpw x hx y hy'
  · simp only [build_rag_context]
    exact List.length_take_le k _

/-- C7 witness: with two queries over wSearch and a maximum of one clause,
the kept entry for cl1 is the retrieved triple produced by q2, and the q1
triple for the same clause scores no higher. -/
theorem build_rag_context_spec_witness :
    ({ clause_id := "cl1", similarity_score := 2, matched_query := "q2" } :
        RetrievedClause) ∈ flat_results wSearch ["q1", "q2"] ∧
    ({ clause_id := "cl1", similarity_score := 1, matched_query := "q1" } :
        RetrievedClause).similarity_score ≤
      ({ clause_id := "cl1", similarity_score := 2, matched_query := "q2" } :
        RetrievedClause).similarity_score := by
  have h := (build_rag_context_spec "c1" 1 wSearch ["q1", "q2"]).2.1
    { clause_id := "cl1", similarity_score := 2, matched_query := "q2" }
    (List.Mem.head _)
  exact ⟨h.1, h.2
    { clause_id := "cl1", similarity_score := 1, matched_query := "q1" }
    (List.Mem.head _) rfl⟩

/-- C4 counterexample: the claim says the Severity type has exactly the four
upper-case values LOW, MEDIUM, HIGH, CRITICAL.  In
src/shared-types/src/enums/index.ts the enum has a fifth member INFO and all
wire values are lower-case, so the claim as stated is false. -/
theorem severity_four_uppercase_counterexample :
    (∃ s : Severity, s.value ∉ ["LOW", "MEDIUM", "HIGH", "CRITICAL"]) ∧
    Severity.LOW.value ≠ "LOW" ∧ Severity.all.length ≠ 4 := by
  refine ⟨⟨Severity.INFO, ?_⟩, ?_, ?_⟩ <;> decide

/-- C4 (amended): the Severity enum has exactly the five members LOW, MEDIUM,
HIGH, CRITICAL, INFO with lower-case wire values, every severity carried by a
rule or finding is one of these five, and the four ranked members are ordered
LOW < MEDIUM < HIGH < CRITICAL by the severity rank. -/
theorem severity_enum_amended :
    Severity.all.map Severity.value = ["low", "medium", "high", "critical", "info"] ∧
    Severity.all.Nodup ∧
    (∀ s : Severity, s ∈ Severity.all) ∧
    (Severity.LOW.rank < Severity.MEDIUM.rank ∧
     Severity.MEDIUM.rank < Severity.HIGH.rank ∧
     Severity.HIGH.rank < Severity.CRITICAL.rank) := by
  refine ⟨by decide, by decide, ?_, by decide⟩
  intro s
  cases s <;> decide

end ContractLeakage
